import Mathlib

/-!
# FACT0RN consensus core: a shallow embedding

Shallow Lean 4 embedding of the FACT0RN consensus-critical routines that the
specification's claims refer to:

* `src/script/bignum.h` — `CScriptBignum` (GMP-backed sign-magnitude integer
  with byte-vector decoding and canonical serialization);
* `src/deadpool/deadpool.cpp` — `CheckDeadpoolInteger`, `HashNValue`,
  `IsDeadpoolEntry`, `ExtractDeadpoolEntryIds`;
* `src/pow.cpp` — `CheckProofOfWork`, the truncation step of `gHash`, and
  `CalculateNextWorkRequired`;
* the announcement database lookup `CAnnounceDB::ClaimExists`.

Machine integers are modelled as `Nat`/`Int`; byte vectors as `List Nat`
with every element `< 256`.  GMP `mpz_t` values are modelled as `Int`
(`mpz_import` of a little-endian byte vector is `bytesToNat`).
-/

/-! ## Byte vectors and GMP primitives -/

/-- Little-endian byte vector to natural number: the value `mpz_import`
(order `-1`, word size 1) produces from a `std::vector<unsigned char>`. -/
def bytesToNat : List Nat → Nat
  | [] => 0
  | b :: bs => b + 256 * bytesToNat bs

/-- Fuel-driven floor of the base-2 logarithm (the fuel makes the
definition reduce inside the kernel; `natLog2_eq` identifies it with
`Nat.log2`). -/
def natLog2Aux : Nat → Nat → Nat
  | 0, _ => 0
  | f + 1, n => if n < 2 then 0 else natLog2Aux f (n / 2) + 1

/-- Kernel-reducible `Nat.log2`. -/
def natLog2 (n : Nat) : Nat := natLog2Aux n n

/-- GMP `mpz_sizeinbase(n, 2)`: the number of base-2 digits of `|n|`;
GMP returns 1 for `n = 0`. -/
def mpzSizeInBase2 (n : Int) : Nat :=
  if n = 0 then 1 else natLog2 n.natAbs + 1

/-! ## `CScriptBignum` (src/script/bignum.h) -/

/-- The state of a `CScriptBignum`: the stored GMP integer and the
`m_valid` flag. -/
structure CScriptBignum where
  value : Int
  valid : Bool
deriving Repr, DecidableEq

namespace CScriptBignum

/-- `CScriptBignum::bits()`, i.e. `mpz_sizeinbase(m_value, 2)`. -/
def bits (n : CScriptBignum) : Nat := mpzSizeInBase2 n.value

/-- `CScriptBignum::sign()`, i.e. `operator<(0)`. -/
def sign (n : CScriptBignum) : Bool := n.value < 0

/-- The little-endian magnitude bytes of `m`, as `mpz_export` (order `-1`,
word size 1) lays them out into a zero-initialised vector of `k` bytes. -/
def magBytes (m k : Nat) : List Nat := (List.range k).map fun i => m / 256 ^ i % 256

/-- `CScriptBignum::Serialize()` (src/script/bignum.h lines 108-133):
zero serializes to the empty vector; otherwise export `|n|` as
little-endian bytes, adding one extra zero byte when the bit size is
byte-aligned, and set the sign bit `0x80` of the last byte when `n < 0`. -/
def serializeBytes (n : Int) : List Nat :=
  if n = 0 then [] else
    let m := n.natAbs
    let bitsz := natLog2 m + 1
    let bytesz := (bitsz + 7) / 8 + (if bitsz % 8 = 0 then 1 else 0)
    (List.range bytesz).map fun i =>
      if i = bytesz - 1 ∧ n < 0 then m / 256 ^ i % 256 ||| 128
      else m / 256 ^ i % 256

/-- The byte-vector constructor
`CScriptBignum::CScriptBignum(const std::vector<unsigned char>&)`
(src/script/bignum.h lines 25-52): import little-endian, and if the top
bit of the last byte is set, clear the integer's most significant bit,
negate, and mark the result invalid when it is negative zero.  The
constructor is a total function: no code path throws. -/
def fromBytes (encoded : List Nat) : CScriptBignum :=
  let m : Nat := bytesToNat encoded
  if 0 < encoded.length ∧ (encoded.getLast?.getD 0) &&& 128 ≠ 0 then
    let msb := mpzSizeInBase2 (m : Int) - 1
    if Nat.testBit m msb then
      let cleared : Nat := m - 2 ^ msb
      { value := -(cleared : Int), valid := decide (-(cleared : Int) ≠ 0) }
    else
      { value := (m : Int), valid := false }
  else
    { value := (m : Int), valid := true }

end CScriptBignum

/-! ## `CheckDeadpoolInteger` (src/deadpool/deadpool.cpp lines 147-200) -/

def reasonBigintZero : String := "bad-bigint-zero"

def reasonBigintInvalidNumber : String := "bad-bigint-invalid-number"

def reasonBigintNegative : String := "bad-bigint-negative"

def reasonBigintTooSmall : String := "bad-bigint-too-small"

def reasonBigintTooLarge : String := "bad-bigint-too-large"

def reasonBigintNonCanonicalSize : String := "bad-bigint-non-canonical-size"

def reasonBigintNonCanonical : String := "bad-bigint-non-canonical"

/-- `CheckDeadpoolInteger(dataN, fCheckEncoding, state)`: `none` models a
`true` return, `some reason` models `state.Invalid(..., reason); return
false`. -/
def checkDeadpoolInteger (dataN : List Nat) (fCheckEncoding : Bool) : Option String :=
  if dataN.length = 0 then some reasonBigintZero
  else
    let n := CScriptBignum.fromBytes dataN
    let bitsz := n.bits
    if n.valid = false then some reasonBigintInvalidNumber
    else if n.value = 0 ∨ n.value = 1 then some reasonBigintZero
    else if n.sign then some reasonBigintNegative
    else if bitsz < 160 then some reasonBigintTooSmall
    else if bitsz > 520 * 8 - 1 then some reasonBigintTooLarge
    else if fCheckEncoding = false then none
    else
      let canonicalN := CScriptBignum.serializeBytes n.value
      if dataN.length ≠ canonicalN.length then some reasonBigintNonCanonicalSize
      else if dataN ≠ canonicalN then some reasonBigintNonCanonical
      else none

/-! ## Proof of work (src/pow.cpp) -/

/-- The block-header fields consumed by `CheckProofOfWork` after the seed
hash has been taken: `nBits` (uint16), `wOffset` (int64) and the 1024-bit
field `nP1` read as a nonnegative integer by `mpz_import`. -/
structure BlockHeader where
  nBits : Nat
  wOffset : Int
  nP1 : Nat
deriving Repr, DecidableEq

/-- The consensus parameters the embedded routines consume. -/
structure ConsensusParams where
  millerRabinRounds : Nat
  fPowNoRetargeting : Bool
  nPowTargetTimespan : Int
  powLimit : Nat
deriving Repr, DecidableEq

/-- `abs_offset` in `CheckProofOfWork`: `(wOffset > 0) ? wOffset : -wOffset`
landing in a `uint64_t`; this equals `|wOffset|` for every int64 value
(including `INT64_MIN`, whose negation wraps to `2^63 = |INT64_MIN|`). -/
def absWOffset (hdr : BlockHeader) : Nat := hdr.wOffset.natAbs

/-- `n = w + offset` as computed by the `mpz_add_ui`/`mpz_sub_ui` branch
on `wOffset >= 0`. -/
def semiN (w : Nat) (hdr : BlockHeader) : Int :=
  if 0 ≤ hdr.wOffset then (w : Int) + (absWOffset hdr : Int)
  else (w : Int) - (absWOffset hdr : Int)

/-- The two guards of `CheckProofOfWork` that run before
`mpz_tdiv_q(nP2, n, nP1)` (src/pow.cpp lines 99-137): the offset bound
and the bit-length check on `n`.  When this returns `true` the division
by `nP1` is executed. -/
def powReachesDivision (w : Nat) (hdr : BlockHeader) : Bool :=
  if absWOffset hdr > 16 * hdr.nBits then false
  else if mpzSizeInBase2 (semiN w hdr) ≠ hdr.nBits then false
  else true

/-- `CheckProofOfWork` (src/pow.cpp lines 93-199), parametric in the seed
`w` (the `uint1024` result of `gHash`) and in `probabPrime`, the
`mpz_probab_prime_p` oracle (returns 0 for composite, 1 or 2 for
probable/definite prime). -/
def checkProofOfWork (probabPrime : Int → Nat → Nat) (w : Nat) (hdr : BlockHeader)
    (params : ConsensusParams) : Bool :=
  if absWOffset hdr > 16 * hdr.nBits then false
  else
    let n := semiN w hdr
    if mpzSizeInBase2 n ≠ hdr.nBits then false
    else
      let nP2 : Int := Int.tdiv n (hdr.nP1 : Int)
      let nP1bits := mpzSizeInBase2 (hdr.nP1 : Int)
      let expected := (hdr.nBits >>> 1) + (hdr.nBits &&& 1)
      if nP1bits ≠ expected then false
      else if (hdr.nP1 : Int) * nP2 ≠ n then false
      else if (hdr.nP1 : Int) > nP2 then false
      else if probabPrime (hdr.nP1 : Int) params.millerRabinRounds = 0 ∨
          probabPrime nP2 params.millerRabinRounds = 0 then false
      else true

/-- The `memset`+`memcpy` stage of the `gHash` truncation: a zeroed
128-byte `uint1024` with `min(128, allBytes + 1)` bytes copied from the
hash buffer (src/pow.cpp lines 393-396). -/
def gHashCopy (derived : Nat → Nat) (allBytes : Nat) : Nat → Nat :=
  fun i => if i < min 128 (allBytes + 1) then derived i else 0

/-- The trim stage: `w[allBytes] = w[allBytes] & ((1 << remBytes) - 1)`
(src/pow.cpp line 399). -/
def gHashTrim (derived : Nat → Nat) (nBits : Nat) : Nat → Nat :=
  Function.update (gHashCopy derived (nBits / 8)) (nBits / 8)
    (gHashCopy derived (nBits / 8) (nBits / 8) &&& ((1 <<< (nBits % 8)) - 1))

/-- The set-bit stage finishing the `gHash` truncation (src/pow.cpp lines
377-406): after trimming, force the bit at position `nBits - 1` to 1 —
`w[allBytes-1] |= 128` when the bit count is byte-aligned, else
`w[allBytes] |= 1 << (remBytes - 1)`.  Returns the byte array of the
returned `uint1024` `w`. -/
def gHashTruncBytes (derived : Nat → Nat) (nBits : Nat) : Nat → Nat :=
  let allBytes := nBits / 8
  let remBytes := nBits % 8
  if remBytes = 0 then
    Function.update (gHashTrim derived nBits) (allBytes - 1)
      (gHashTrim derived nBits (allBytes - 1) ||| 128)
  else
    Function.update (gHashTrim derived nBits) allBytes
      (gHashTrim derived nBits allBytes ||| (1 <<< (remBytes - 1)))

/-- The integer value of the returned `uint1024` (this is exactly what
`mpz_import(W, 16, -1, 8, 0, 0, w.u64_begin())` reads back in
`CheckProofOfWork`). -/
def gHashTrunc (derived : Nat → Nat) (nBits : Nat) : Nat :=
  ∑ i ∈ Finset.range 128, gHashTruncBytes derived nBits i * 256 ^ i

/-! ## Retargeting (src/pow.cpp lines 65-91) -/

/-- The exact rational value of the binary32 literal `1.0333f`
(promoted to double in the comparison). -/
def rat10333f : ℚ := 8667949 / 8388608

/-- The exact rational value of the binary32 literal `0.90f`
(promoted to double in the comparison). -/
def rat090f : ℚ := 7549747 / 8388608

/-- `CalculateNextWorkRequired(pindexLast, nFirstBlockTime, params)`
(src/pow.cpp lines 65-91).  The double divide
`(double)nActualTimespan / (double)nPowTargetTimespan` is modelled as the
exact rational quotient; the two float thresholds keep their exact
binary32 values.  The computed `(int32_t)nBits + nRetarget` is returned
through the `uint16_t` return type, i.e. reduced mod `2^16`. -/
def calculateNextWorkRequired (lastBits : Nat) (lastBlockTime nFirstBlockTime : Int)
    (params : ConsensusParams) : Nat :=
  if params.fPowNoRetargeting then lastBits
  else
    let nActualTimespan : Int := lastBlockTime - nFirstBlockTime
    let proportion : ℚ := (nActualTimespan : ℚ) / (params.nPowTargetTimespan : ℚ)
    let nRetarget : Int := if proportion > rat10333f then -1 else 0
    let nRetarget2 : Int := if proportion < rat090f then 1 else nRetarget
    (((lastBits : Int) + nRetarget2) % 65536).toNat

/-! ## Announcement database (`CAnnounceDB::ClaimExists`) -/

/-- `DeadpoolIndexKey`: record key of the announcement db.  `deadpoolId`
and `locator` stand for the uint256 / outpoint components, ordered as the
backing store orders the serialized keys. -/
structure AnnKey where
  typ : Nat
  deadpoolId : Nat
  locator : Nat
deriving Repr, DecidableEq

/-- `CClaimValue`: inclusion height and claim hash of an announcement. -/
structure AnnValue where
  height : Int
  claimHash : Nat
deriving Repr, DecidableEq

/-- `DB_DEADPOOL_ANN = 'a'`. -/
def dbDeadpoolAnn : Nat := 97

/-- The iteration of `CAnnounceDB::ClaimExists` after `Seek`: scan while
the key keeps the searched type and deadpool id, returning `true` on the
first record whose height lies in `[minHeight, maxHeight]` and whose
claim hash matches; `break` (returning `false`) on the first key
mismatch. -/
def claimExistsLoop (hash claim : Nat) (minHeight maxHeight : Int) :
    List (AnnKey × AnnValue) → Bool
  | [] => false
  | kv :: rest =>
    if kv.1.typ = dbDeadpoolAnn ∧ kv.1.deadpoolId = hash then
      if kv.2.height ≤ maxHeight ∧ minHeight ≤ kv.2.height ∧ kv.2.claimHash = claim then true
      else claimExistsLoop hash claim minHeight maxHeight rest
    else false

/-- `CAnnounceDB::ClaimExists(hash, claim, minHeight, maxHeight)`
(announcedb implementation lines 100-125).  The database is a list of
key/value records in ascending key order; `Seek(searchKey)` positions the
cursor on the first record whose `(type, deadpoolId)` serialized key
prefix is not below `(DB_DEADPOOL_ANN, hash)`. -/
def claimExists (db : List (AnnKey × AnnValue)) (hash claim : Nat)
    (minHeight maxHeight : Int) : Bool :=
  claimExistsLoop hash claim minHeight maxHeight
    (db.dropWhile fun kv =>
      decide (kv.1.typ < dbDeadpoolAnn) ||
        (kv.1.typ == dbDeadpoolAnn && decide (kv.1.deadpoolId < hash)))

/-! ## SHA-256 and deadpool entry scripts

The repository's `crypto/sha256` implementation and the `Solver` /
`CScript::GetOp` script machinery are not among the provided sources;
they are modelled from the specification below. -/

/-- Modelled from the spec: the standard FIPS 180-4 SHA-256 round
constants (`crypto/sha256` is not among the provided sources; the spec
calls the hash SHA256). -/
def sha256K : List Nat :=
  [1116352408, 1899447441, 3049323471, 3921009573, 961987163, 1508970993,
   2453635748, 2870763221, 3624381080, 310598401, 607225278, 1426881987,
   1925078388, 2162078206, 2614888103, 3248222580, 3835390401, 4022224774,
   264347078, 604807628, 770255983, 1249150122, 1555081692, 1996064986,
   2554220882, 2821834349, 2952996808, 3210313671, 3336571891, 3584528711,
   113926993, 338241895, 666307205, 773529912, 1294757372, 1396182291,
   1695183700, 1986661051, 2177026350, 2456956037, 2730485921, 2820302411,
   3259730800, 3345764771, 3516065817, 3600352804, 4094571909, 275423344,
   430227734, 506948616, 659060556, 883997877, 958139571, 1322822218,
   1537002063, 1747873779, 1955562222, 2024104815, 2227730452, 2361852424,
   2428436474, 2756734187, 3204031479, 3329325298]

/-- Modelled from the spec: the standard SHA-256 initial hash state. -/
def sha256H0 : List Nat :=
  [1779033703, 3144134277, 1013904242, 2773480762,
   1359893119, 2600822924, 528734635, 1541459225]

/-- Reduce to a 32-bit word. -/
def w32 (x : Nat) : Nat := x % 4294967296

/-- 32-bit right rotation. -/
def rotr32 (x n : Nat) : Nat := w32 ((x >>> n) ||| (x <<< (32 - n)))

/-- SHA-256 `Ch` (the complement is a 32-bit xor with `0xffffffff`). -/
def shaCh (x y z : Nat) : Nat := (x &&& y) ^^^ ((x ^^^ 4294967295) &&& z)

/-- SHA-256 `Maj`. -/
def shaMaj (x y z : Nat) : Nat := (x &&& y) ^^^ (x &&& z) ^^^ (y &&& z)

/-- SHA-256 `Σ0`. -/
def shaBigSigma0 (x : Nat) : Nat := rotr32 x 2 ^^^ rotr32 x 13 ^^^ rotr32 x 22

/-- SHA-256 `Σ1`. -/
def shaBigSigma1 (x : Nat) : Nat := rotr32 x 6 ^^^ rotr32 x 11 ^^^ rotr32 x 25

/-- SHA-256 `σ0`. -/
def shaSmallSigma0 (x : Nat) : Nat := rotr32 x 7 ^^^ rotr32 x 18 ^^^ (x >>> 3)

/-- SHA-256 `σ1`. -/
def shaSmallSigma1 (x : Nat) : Nat := rotr32 x 17 ^^^ rotr32 x 19 ^^^ (x >>> 10)

/-- Big-endian word from a list of bytes. -/
def beWord (bs : List Nat) : Nat := bs.foldl (fun acc b => acc * 256 + b) 0

/-- `k` big-endian bytes of `n`. -/
def beBytes (k n : Nat) : List Nat :=
  ((List.range k).map fun i => n / 256 ^ i % 256).reverse

/-- One message-schedule extension step: append word `n` computed from
words `n-2`, `n-7`, `n-15`, `n-16`. -/
def sha256ExtendStep (w : List Nat) : List Nat :=
  let n := w.length
  w ++ [w32 (shaSmallSigma1 (w.getD (n - 2) 0) + w.getD (n - 7) 0 +
      shaSmallSigma0 (w.getD (n - 15) 0) + w.getD (n - 16) 0)]

/-- One SHA-256 compression round on the 8-word state, with `kw` the sum
of the round constant and the schedule word. -/
def sha256Round (st : List Nat) (kw : Nat) : List Nat :=
  match st with
  | [a, b, c, d, e, f, g, h] =>
    let t1 := w32 (h + shaBigSigma1 e + shaCh e f g + kw)
    let t2 := w32 (shaBigSigma0 a + shaMaj a b c)
    [w32 (t1 + t2), a, b, c, w32 (d + t1), e, f, g]
  | _ => st

/-- SHA-256 compression of one 64-byte block. -/
def sha256Compress (h0 : List Nat) (block : List Nat) : List Nat :=
  let w16 := (List.range 16).map fun i => beWord ((block.drop (4 * i)).take 4)
  let w := Nat.iterate sha256ExtendStep 48 w16
  let kw := List.zipWith (fun k wi => w32 (k + wi)) sha256K w
  let st := kw.foldl sha256Round h0
  List.zipWith (fun x y => w32 (x + y)) h0 st

/-- Standard SHA-256 padding: `0x80`, zeros, 8-byte big-endian bit length. -/
def sha256Pad (msg : List Nat) : List Nat :=
  let z := (119 - msg.length % 64) % 64
  msg ++ [128] ++ List.replicate z 0 ++ beBytes 8 (8 * msg.length)

/-- Fold the compression function over the 64-byte blocks (the fuel is
only there to make the recursion structural; `data.length` steps always
suffice because every step consumes 64 bytes). -/
def sha256BlocksAux : Nat → List Nat → List Nat → List Nat
  | 0, h, _ => h
  | fuel + 1, h, data =>
    if data = [] then h
    else sha256BlocksAux fuel (sha256Compress h (data.take 64)) (data.drop 64)

/-- Fold the compression function over the 64-byte blocks. -/
def sha256Blocks (h : List Nat) (data : List Nat) : List Nat :=
  sha256BlocksAux data.length h data

/-- The 32 digest bytes of SHA-256 of a byte message. -/
def sha256Bytes (msg : List Nat) : List Nat :=
  ((sha256Blocks sha256H0 (sha256Pad msg)).map (beBytes 4)).flatten

/-- `HashNValue` (src/deadpool/deadpool.cpp lines 139-144): SHA-256 of the
raw `dataN` bytes; the digest bytes land in the `uint256` in memory
order. -/
def hashNValue (dataN : List Nat) : List Nat := sha256Bytes dataN

/-- Modelled from the spec: `CScript::GetOp` reading a single pushdata
operation (direct pushes `0x01..0x4b`, `OP_PUSHDATA1`, `OP_PUSHDATA2`);
`script/script.h` is not among the provided sources.  Returns the pushed
bytes and the remaining script, or `none` when the head of the script is
not a well-formed push. -/
def getOpPushData (script : List Nat) : Option (List Nat × List Nat) :=
  match script with
  | [] => none
  | op :: rest =>
    if 1 ≤ op ∧ op ≤ 75 then
      if rest.length < op then none
      else some (rest.take op, rest.drop op)
    else if op = 76 then
      match rest with
      | len :: rest2 =>
        if rest2.length < len then none else some (rest2.take len, rest2.drop len)
      | [] => none
    else if op = 77 then
      match rest with
      | l1 :: l2 :: rest2 =>
        let len := l1 + 256 * l2
        if rest2.length < len then none else some (rest2.take len, rest2.drop len)
      | _ => none
    else none

/-- The opcode tail of a deadpool entry script:
`OP_CHECKDIVVERIFY (0xb9) OP_DROP (0x75) OP_ANNOUNCEVERIFY (0xb8)
OP_DROP OP_DROP OP_TRUE (0x51)` — the byte values pinned by the unit
test's expected hex `...b975b8757551`. -/
def deadpoolEntryTail : List Nat := [185, 117, 184, 117, 117, 81]

/-- Modelled from the spec: `IsDeadpoolEntry` via the `Solver` template
match (`script/standard.cpp` is not among the provided sources).  The
spec's entry template is a single push of `N_bytes` — at least 20 bytes
(the 160-bit minimum, scenario B calls a 2-byte push a pattern mismatch)
and at most the 520-byte script element limit — followed by the fixed
opcode tail. -/
def isDeadpoolEntry (script : List Nat) : Bool :=
  match getOpPushData script with
  | some (dataN, rest) =>
    decide (20 ≤ dataN.length ∧ dataN.length ≤ 520 ∧ rest = deadpoolEntryTail)
  | none => false

/-- `GetEntryNHash` (src/deadpool/deadpool.cpp lines 126-137): hash of the
first pushdata of the scriptPubKey (an empty vector when the head of the
script is not a push, since `GetOp` then leaves `dataN` empty). -/
def getEntryNHash (script : List Nat) : List Nat :=
  match getOpPushData script with
  | some (dataN, _) => hashNValue dataN
  | none => hashNValue []

/-- `ExtractDeadpoolEntryIds` (src/deadpool/deadpool.cpp lines 78-88):
scan the txouts (modelled by their scriptPubKeys); the boolean records
whether any entry was seen and the list collects the distinct entry
hashes (`std::unordered_set::emplace`). -/
def extractDeadpoolEntryIds (txouts : List (List Nat)) : Bool × List (List Nat) :=
  txouts.foldl
    (fun acc script =>
      if isDeadpoolEntry script then
        (true, if getEntryNHash script ∈ acc.2 then acc.2 else acc.2 ++ [getEntryNHash script])
      else acc)
    (false, [])

/-- The scenario-A entry scriptPubKey,
hex `14 000000000000000000000000000000000000013f b9 75 b8 75 75 51`. -/
def entryScript13f : List Nat :=
  [20] ++ List.replicate 18 0 ++ [1, 63] ++ deadpoolEntryTail

/-- The 20-byte zero-padded big-endian push payload for `N = 0x13f`. -/
def paddedN13f : List Nat := List.replicate 18 0 ++ [1, 63]

/-! ## Bridging lemmas -/

theorem natLog2Aux_eq (f n : Nat) (h : n ≤ f) : natLog2Aux f n = Nat.log2 n := by
  induction f generalizing n with
  | zero =>
    interval_cases n
    simp [natLog2Aux, Nat.log2]
  | succ f ih =>
    rw [natLog2Aux, Nat.log2]
    by_cases h2 : n < 2
    · simp [h2, Nat.not_le_of_lt h2]
    · have hle : 2 ≤ n := Nat.le_of_not_lt h2
      have hd : n / 2 ≤ f := by omega
      simp [h2, hle, ih _ hd]

@[simp] theorem natLog2_eq (n : Nat) : natLog2 n = Nat.log2 n :=
  natLog2Aux_eq n n (Nat.le_refl n)

theorem mpzSizeInBase2_def (n : Int) :
    mpzSizeInBase2 n = if n = 0 then 1 else Nat.log2 n.natAbs + 1 := by
  simp [mpzSizeInBase2]

theorem bytesToNat_append (xs ys : List Nat) :
    bytesToNat (xs ++ ys) = bytesToNat xs + 256 ^ xs.length * bytesToNat ys := by
  induction xs with
  | nil => simp [bytesToNat]
  | cons b bs ih =>
    simp only [List.cons_append, bytesToNat, List.append_eq, ih, List.length_cons, pow_succ]
    ring

theorem bytesToNat_magBytes (m k : Nat) :
    bytesToNat (CScriptBignum.magBytes m k) = m % 256 ^ k := by
  induction k with
  | zero => simp [CScriptBignum.magBytes, bytesToNat, Nat.mod_one]
  | succ k ih =>
    rw [CScriptBignum.magBytes, List.range_succ, List.map_append, bytesToNat_append]
    rw [CScriptBignum.magBytes] at ih
    simp only [ih, List.map_cons, List.map_nil, List.length_map, List.length_range, bytesToNat]
    rw [pow_succ, Nat.mod_mul]
    ring

theorem and128_eq_zero {b : Nat} (h : b < 128) : b &&& 128 = 0 := by
  have h7 : (128 : Nat) = 2 ^ 7 := rfl
  rw [h7, Nat.and_two_pow, Nat.testBit_lt_two_pow (h7 ▸ h)]
  rfl

theorem add128_and_ne_zero {b : Nat} (h : b < 128) : (b + 128) &&& 128 ≠ 0 := by
  have ht : Nat.testBit (b + 128) 7 = true := by
    rw [show b + 128 = 2 ^ 7 * 1 + b from by omega,
      Nat.testBit_mul_pow_two_add 1 (show b < 2 ^ 7 from h) 7]
    simp
  rw [show ((b + 128) &&& 128) = ((b + 128) &&& 2 ^ 7) from rfl, Nat.and_two_pow, ht]
  simp

theorem or128_eq_add {b : Nat} (h : b < 128) : b ||| 128 = b + 128 := by
  have h7 : (128 : Nat) = 2 ^ 7 := rfl
  have := Nat.mul_add_lt_is_or (h7 ▸ h) 1
  calc b ||| 128 = 128 ||| b := Nat.lor_comm b 128
  _ = 2 ^ 7 * 1 ||| b := by norm_num
  _ = 2 ^ 7 * 1 + b := this.symm
  _ = b + 128 := by omega

theorem lt_128_mul_log2 (m : Nat) :
    m < 128 * 256 ^ ((Nat.log2 m + 1) / 8) := by
  have h1 : m < 2 ^ (Nat.log2 m + 1) := by
    rw [Nat.log2_eq_log_two]
    exact Nat.lt_pow_succ_log_self (by norm_num) m
  have h2 : Nat.log2 m + 1 ≤ 8 * ((Nat.log2 m + 1) / 8) + 7 := by omega
  have h3 : 2 ^ (Nat.log2 m + 1) ≤ 2 ^ (8 * ((Nat.log2 m + 1) / 8) + 7) :=
    Nat.pow_le_pow_right (by norm_num) h2
  have h4 : (128 : Nat) * 256 ^ ((Nat.log2 m + 1) / 8) =
      2 ^ (8 * ((Nat.log2 m + 1) / 8) + 7) := by
    rw [show (256 : Nat) = 2 ^ 8 from rfl, ← pow_mul, pow_add]
    ring
  omega

theorem pow256_eq_two_pow (k : Nat) : (128 : Nat) * 256 ^ k = 2 ^ (8 * k + 7) := by
  rw [show (256 : Nat) = 2 ^ 8 from rfl, ← pow_mul, pow_add]
  ring

theorem lt_two_pow_8log (m : Nat) : m < 2 ^ (8 * ((Nat.log2 m + 1) / 8) + 7) := by
  have := lt_128_mul_log2 m
  rwa [pow256_eq_two_pow] at this

theorem topByte_lt (m : Nat) : m / 256 ^ ((Nat.log2 m + 1) / 8) % 256 < 128 := by
  have h1 : m / 256 ^ ((Nat.log2 m + 1) / 8) < 128 := by
    rw [Nat.div_lt_iff_lt_mul (pow_pos (by norm_num) _)]
    have := lt_128_mul_log2 m
    omega
  exact lt_of_le_of_lt (Nat.mod_le _ _) h1

theorem log2_add_two_pow {m e : Nat} (h : m < 2 ^ e) : Nat.log2 (m + 2 ^ e) = e := by
  rw [Nat.log2_eq_log_two]
  apply Nat.log_eq_of_pow_le_of_lt_pow
  · omega
  · have : 2 ^ (e + 1) = 2 * 2 ^ e := by rw [pow_succ]; ring
    omega

theorem testBit_add_two_pow {m e : Nat} (h : m < 2 ^ e) :
    Nat.testBit (m + 2 ^ e) e = true := by
  rw [show m + 2 ^ e = 2 ^ e * 1 + m from by omega, Nat.testBit_mul_pow_two_add 1 h e]
  simp

theorem serializeBytes_pos (n : Int) (h : 0 < n) :
    CScriptBignum.serializeBytes n =
      CScriptBignum.magBytes n.natAbs ((Nat.log2 n.natAbs + 1) / 8 + 1) := by
  have hn0 : n ≠ 0 := ne_of_gt h
  simp only [CScriptBignum.serializeBytes, if_neg hn0, natLog2_eq]
  have hB : (Nat.log2 n.natAbs + 1 + 7) / 8 +
      (if (Nat.log2 n.natAbs + 1) % 8 = 0 then 1 else 0) =
      (Nat.log2 n.natAbs + 1) / 8 + 1 := by
    by_cases h8 : (Nat.log2 n.natAbs + 1) % 8 = 0 <;> simp [h8] <;> omega
  rw [hB, CScriptBignum.magBytes]
  apply List.map_congr_left
  intro i _
  rw [if_neg]
  rintro ⟨-, hlt⟩
  omega

theorem serializeBytes_neg (n : Int) (h : n < 0) :
    CScriptBignum.serializeBytes n =
      CScriptBignum.magBytes n.natAbs ((Nat.log2 n.natAbs + 1) / 8) ++
        [n.natAbs / 256 ^ ((Nat.log2 n.natAbs + 1) / 8) % 256 + 128] := by
  have hn0 : n ≠ 0 := ne_of_lt h
  simp only [CScriptBignum.serializeBytes, if_neg hn0, natLog2_eq]
  have hB : (Nat.log2 n.natAbs + 1 + 7) / 8 +
      (if (Nat.log2 n.natAbs + 1) % 8 = 0 then 1 else 0) =
      (Nat.log2 n.natAbs + 1) / 8 + 1 := by
    by_cases h8 : (Nat.log2 n.natAbs + 1) % 8 = 0 <;> simp [h8] <;> omega
  rw [hB, List.range_succ, List.map_append]
  congr 1
  · rw [CScriptBignum.magBytes]
    apply List.map_congr_left
    intro i hi
    rw [List.mem_range] at hi
    rw [if_neg]
    rintro ⟨h1, -⟩
    omega
  · simp only [List.map_cons, List.map_nil]
    rw [if_pos ⟨by omega, h⟩, or128_eq_add (topByte_lt n.natAbs)]

theorem bytesToNat_serializeBytes_pos (n : Int) (h : 0 < n) :
    bytesToNat (CScriptBignum.serializeBytes n) = n.natAbs := by
  rw [serializeBytes_pos n h, bytesToNat_magBytes]
  apply Nat.mod_eq_of_lt
  calc n.natAbs < 128 * 256 ^ ((Nat.log2 n.natAbs + 1) / 8) := lt_128_mul_log2 _
  _ ≤ 256 ^ ((Nat.log2 n.natAbs + 1) / 8 + 1) := by
      rw [pow_succ]
      have : (0 : Nat) < 256 ^ ((Nat.log2 n.natAbs + 1) / 8) := pow_pos (by norm_num) _
      omega

theorem bytesToNat_serializeBytes_neg (n : Int) (h : n < 0) :
    bytesToNat (CScriptBignum.serializeBytes n) =
      n.natAbs + 2 ^ (8 * ((Nat.log2 n.natAbs + 1) / 8) + 7) := by
  rw [serializeBytes_neg n h, bytesToNat_append, bytesToNat_magBytes]
  have hlen : (CScriptBignum.magBytes n.natAbs ((Nat.log2 n.natAbs + 1) / 8)).length =
      (Nat.log2 n.natAbs + 1) / 8 := by
    simp [CScriptBignum.magBytes]
  rw [hlen]
  have hdiv : n.natAbs / 256 ^ ((Nat.log2 n.natAbs + 1) / 8) % 256 =
      n.natAbs / 256 ^ ((Nat.log2 n.natAbs + 1) / 8) := by
    apply Nat.mod_eq_of_lt
    have := topByte_lt n.natAbs
    have h1 : n.natAbs / 256 ^ ((Nat.log2 n.natAbs + 1) / 8) < 128 := by
      rw [Nat.div_lt_iff_lt_mul (pow_pos (by norm_num) _)]
      have := lt_128_mul_log2 n.natAbs
      omega
    omega
  rw [bytesToNat, bytesToNat, hdiv]
  rw [← pow256_eq_two_pow]
  have := Nat.mod_add_div n.natAbs (256 ^ ((Nat.log2 n.natAbs + 1) / 8))
  ring_nf
  ring_nf at this
  omega

theorem fromBytes_serializeBytes (n : Int) :
    CScriptBignum.fromBytes (CScriptBignum.serializeBytes n) = ⟨n, true⟩ := by
  rcases lt_trichotomy n 0 with hneg | rfl | hpos
  · -- negative: the sign branch fires and restores the negated magnitude
    have hm0 : n.natAbs ≠ 0 := Int.natAbs_ne_zero.mpr (ne_of_lt hneg)
    have hser := serializeBytes_neg n hneg
    have hval := bytesToNat_serializeBytes_neg n hneg
    have htop := topByte_lt n.natAbs
    have hmlt := lt_two_pow_8log n.natAbs
    have hlast : (CScriptBignum.serializeBytes n).getLast? =
        some (n.natAbs / 256 ^ ((Nat.log2 n.natAbs + 1) / 8) % 256 + 128) := by
      rw [hser]
      exact List.getLast?_concat _
    have hlen : 0 < (CScriptBignum.serializeBytes n).length := by
      rw [hser]
      simp
    simp only [CScriptBignum.fromBytes]
    rw [if_pos ⟨hlen, by rw [hlast]; simpa using add128_and_ne_zero htop⟩]
    rw [hval]
    have hsz : mpzSizeInBase2 (((n.natAbs + 2 ^ (8 * ((Nat.log2 n.natAbs + 1) / 8) + 7) : Nat) :
        Int)) - 1 = 8 * ((Nat.log2 n.natAbs + 1) / 8) + 7 := by
      rw [mpzSizeInBase2_def, if_neg (by positivity), Int.natAbs_ofNat,
        log2_add_two_pow hmlt]
      omega
    rw [hsz, if_pos (testBit_add_two_pow hmlt)]
    have hclear : n.natAbs + 2 ^ (8 * ((Nat.log2 n.natAbs + 1) / 8) + 7) -
        2 ^ (8 * ((Nat.log2 n.natAbs + 1) / 8) + 7) = n.natAbs := by omega
    rw [hclear]
    have hvn : -((n.natAbs : Nat) : Int) = n := by omega
    simp only [CScriptBignum.mk.injEq, hvn]
    refine ⟨trivial, ?_⟩
    simp only [decide_eq_true_eq]
    omega
  · -- zero serializes to the empty vector
    decide
  · -- positive: the sign branch is skipped and the import is the identity
    have hser := serializeBytes_pos n hpos
    have htop := topByte_lt n.natAbs
    have hval := bytesToNat_serializeBytes_pos n hpos
    have hsplit : CScriptBignum.magBytes n.natAbs ((Nat.log2 n.natAbs + 1) / 8 + 1) =
        CScriptBignum.magBytes n.natAbs ((Nat.log2 n.natAbs + 1) / 8) ++
          [n.natAbs / 256 ^ ((Nat.log2 n.natAbs + 1) / 8) % 256] := by
      rw [CScriptBignum.magBytes, List.range_succ, List.map_append, CScriptBignum.magBytes]
      rfl
    have hlast : (CScriptBignum.serializeBytes n).getLast? =
        some (n.natAbs / 256 ^ ((Nat.log2 n.natAbs + 1) / 8) % 256) := by
      rw [hser, hsplit]
      exact List.getLast?_concat _
    simp only [CScriptBignum.fromBytes]
    rw [if_neg]
    · rw [hval]
      simp only [CScriptBignum.mk.injEq]
      exact ⟨by omega, trivial⟩
    · rintro ⟨-, hand⟩
      rw [hlast] at hand
      simp only [Option.getD_some] at hand
      exact hand (and128_eq_zero htop)

/-! ## Claim theorems -/

/-- C5 counterexample: the decoder marks the single byte `0x00` valid
(no sign bit, value zero), but re-serializing the decoded value yields
the empty vector, not `[0x00]`; so `encode (decode e) = e` fails for a
decoder-valid `e`. -/
theorem C5_bigint_roundtrip_counterexample :
    (CScriptBignum.fromBytes [0]).valid = true ∧
      CScriptBignum.serializeBytes (CScriptBignum.fromBytes [0]).value ≠ [0] := by
  decide

/-- C5 (amended): `decode (encode n) = n` with the valid flag set, for
every integer `n`; and re-serialization is the identity on byte vectors
in the image of `Serialize` (rather than on all decoder-valid vectors,
which fails on non-canonical paddings such as `[0x00]`). -/
theorem C5_bigint_roundtrip (n : Int) (e : List Nat) :
    (CScriptBignum.fromBytes (CScriptBignum.serializeBytes n)).value = n ∧
    (CScriptBignum.fromBytes (CScriptBignum.serializeBytes n)).valid = true ∧
    (CScriptBignum.serializeBytes n = e →
      CScriptBignum.serializeBytes (CScriptBignum.fromBytes e).value = e) := by
  refine ⟨by rw [fromBytes_serializeBytes], by rw [fromBytes_serializeBytes], ?_⟩
  rintro rfl
  rw [fromBytes_serializeBytes]

/-- C5 witness: the roundtrip at `n = -299` (serialized `[0x2b, 0x81]`). -/
theorem C5_bigint_roundtrip_witness :
    (CScriptBignum.fromBytes (CScriptBignum.serializeBytes (-299))).value = -299 ∧
    (CScriptBignum.fromBytes (CScriptBignum.serializeBytes (-299))).valid = true ∧
    CScriptBignum.serializeBytes (CScriptBignum.fromBytes [43, 129]).value = [43, 129] :=
  ⟨(C5_bigint_roundtrip (-299) [43, 129]).1, (C5_bigint_roundtrip (-299) [43, 129]).2.1,
    (C5_bigint_roundtrip (-299) [43, 129]).2.2 (by decide)⟩

/-- C6: every byte vector encoding negative zero — sign bit `0x80` set in
the last byte while the magnitude (the imported integer, which is then a
power of two whose only set bit is the sign bit) clears to zero — is
decoded by the byte-vector constructor, which is a total function (no
exception, modelled by totality), into an object with `IsValid() = false`. -/
theorem C6_negative_zero_invalid (e : List Nat) (h1 : e ≠ [])
    (h2 : (e.getLast?.getD 0) &&& 128 ≠ 0)
    (h3 : bytesToNat e = 2 ^ Nat.log2 (bytesToNat e)) :
    (CScriptBignum.fromBytes e).valid = false := by
  have hm0 : bytesToNat e ≠ 0 := by
    intro h0
    rw [h0, Nat.log2_eq_log_two, Nat.log_zero_right] at h3
    norm_num at h3
  simp only [CScriptBignum.fromBytes]
  rw [if_pos ⟨List.length_pos.mpr h1, h2⟩]
  have hsz : mpzSizeInBase2 ((bytesToNat e : Nat) : Int) - 1 = Nat.log2 (bytesToNat e) := by
    rw [mpzSizeInBase2_def, if_neg (Int.natCast_ne_zero.mpr hm0), Int.natAbs_ofNat]
    omega
  rw [hsz, if_pos]
  · have hc : bytesToNat e - 2 ^ Nat.log2 (bytesToNat e) = 0 := by omega
    rw [hc]
    simp
  · have ht := Nat.testBit_two_pow_self (n := Nat.log2 (bytesToNat e))
    rw [← h3] at ht
    exact ht

/-- C6 witness: the single byte `0x80`. -/
theorem C6_negative_zero_invalid_witness :
    (CScriptBignum.fromBytes [128]).valid = false :=
  C6_negative_zero_invalid [128] (by decide) (by decide)
    (by rw [← natLog2_eq]; decide)

set_option maxHeartbeats 1600000 in
/-- C7: with encoding checks enabled, `CheckDeadpoolInteger` passes
exactly the non-empty vectors that decode to a valid integer greater
than 1 whose GMP bit length lies in `[160, 4159]` and that equal the
canonical re-serialization of their decoded value; every rejection
reason is one of the seven `bad-bigint-*` strings; and the two-byte
input `0x01 0x3f` is rejected as `bad-bigint-too-small`. -/
theorem C7_checkDeadpoolInteger (dataN : List Nat) :
    (checkDeadpoolInteger dataN true = none ↔
      dataN ≠ [] ∧ (CScriptBignum.fromBytes dataN).valid = true ∧
        1 < (CScriptBignum.fromBytes dataN).value ∧
        160 ≤ (CScriptBignum.fromBytes dataN).bits ∧
        (CScriptBignum.fromBytes dataN).bits ≤ 4159 ∧
        dataN = CScriptBignum.serializeBytes (CScriptBignum.fromBytes dataN).value) ∧
    (∀ r, checkDeadpoolInteger dataN true = some r →
      r ∈ [reasonBigintZero, reasonBigintInvalidNumber, reasonBigintNegative,
        reasonBigintTooSmall, reasonBigintTooLarge, reasonBigintNonCanonicalSize,
        reasonBigintNonCanonical]) ∧
    checkDeadpoolInteger [1, 63] true = some reasonBigintTooSmall := by
  refine ⟨?_, ?_, by decide⟩
  · simp only [checkDeadpoolInteger, CScriptBignum.sign, decide_eq_true_eq]
    split_ifs with h1 h2 h3 h4 h5 h6 h7 h8 h9
    · simp [List.length_eq_zero.mp h1]
    · simp [h2]
    · constructor
      · intro h
        exact absurd h (by simp)
      · rintro ⟨-, -, hv, -⟩
        omega
    · constructor
      · intro h
        exact absurd h (by simp)
      · rintro ⟨-, -, hv, -⟩
        omega
    · constructor
      · intro h
        exact absurd h (by simp)
      · rintro ⟨-, -, -, hb, -⟩
        omega
    · constructor
      · intro h
        exact absurd h (by simp)
      · rintro ⟨-, -, -, -, hb, -⟩
        omega
    · exact h7.elim
    · constructor
      · intro h
        exact absurd h (by simp)
      · rintro ⟨-, -, -, -, -, hc⟩
        exact absurd (congrArg List.length hc) h8
    · constructor
      · intro h
        exact absurd h (by simp)
      · rintro ⟨-, -, -, -, -, hc⟩
        exact absurd hc h9
    · simp only [true_iff]
      refine ⟨fun he => h1 (by simp [he]), ?_, by omega, by omega, by omega, not_not.mp h9⟩
      cases hb : (CScriptBignum.fromBytes dataN).valid
      · exact absurd hb h2
      · rfl
  · simp only [checkDeadpoolInteger]
    split_ifs <;> intro r hr <;>
      first
        | exact hr.elim
        | (simp only [Option.some.injEq] at hr; subst hr; decide)

/-- C1: for headers whose `nP1` field encodes a nonzero integer,
`CheckProofOfWork` accepts exactly when — writing `W` for the `gHash`
seed and `N = W + wOffset` — the offset is bounded by `16·nBits`, `N` has
bit length `nBits`, `nP1` times the truncated quotient `N / nP1`
recovers `N`, `nP1` has bit length `⌈nBits/2⌉`, `nP1 ≤ N / nP1`, and both
factors pass the `mpz_probab_prime_p` oracle with the configured rounds;
failing any single condition yields `false`.  The nonzero hypothesis
scopes the claim to the inputs on which the embedding is faithful: Lean's
`Int.tdiv` totalizes the division that GMP would abort on (see C10). -/
theorem C1_checkProofOfWork (probabPrime : Int → Nat → Nat) (w : Nat) (hdr : BlockHeader)
    (params : ConsensusParams) (hP1 : hdr.nP1 ≠ 0) :
    checkProofOfWork probabPrime w hdr params = true ↔
      absWOffset hdr ≤ 16 * hdr.nBits ∧
      mpzSizeInBase2 ((w : Int) + hdr.wOffset) = hdr.nBits ∧
      (hdr.nP1 : Int) * Int.tdiv ((w : Int) + hdr.wOffset) (hdr.nP1 : Int) =
        (w : Int) + hdr.wOffset ∧
      mpzSizeInBase2 (hdr.nP1 : Int) = (hdr.nBits + 1) / 2 ∧
      (hdr.nP1 : Int) ≤ Int.tdiv ((w : Int) + hdr.wOffset) (hdr.nP1 : Int) ∧
      probabPrime (hdr.nP1 : Int) params.millerRabinRounds ≠ 0 ∧
      probabPrime (Int.tdiv ((w : Int) + hdr.wOffset) (hdr.nP1 : Int))
        params.millerRabinRounds ≠ 0 := by
  have hsem : semiN w hdr = (w : Int) + hdr.wOffset := by
    simp only [semiN, absWOffset]
    split_ifs with h
    · omega
    · omega
  have hexp : (hdr.nBits >>> 1) + (hdr.nBits &&& 1) = (hdr.nBits + 1) / 2 := by
    rw [Nat.shiftRight_eq_div_pow, Nat.and_one_is_mod]
    omega
  simp only [checkProofOfWork, hsem, hexp]
  split_ifs with h1 h2 h3 h4 h5 h6
  · refine iff_of_false (by simp) ?_
    rintro ⟨c1, -⟩
    omega
  · refine iff_of_false (by simp) ?_
    rintro ⟨-, c2, -⟩
    exact h2 c2
  · refine iff_of_false (by simp) ?_
    rintro ⟨-, -, -, c4, -⟩
    exact h3 c4
  · refine iff_of_false (by simp) ?_
    rintro ⟨-, -, c3, -⟩
    exact h4 c3
  · refine iff_of_false (by simp) ?_
    rintro ⟨-, -, -, -, c5, -⟩
    omega
  · refine iff_of_false (by simp) ?_
    rintro ⟨-, -, -, -, -, c6, c7⟩
    rcases h6 with h | h
    · exact c6 h
    · exact c7 h
  · rw [not_or] at h6
    exact iff_of_true rfl
      ⟨by omega, not_not.mp h2, not_not.mp h4, not_not.mp h3, by omega, h6.1, h6.2⟩

/-- C1 witness: `nBits = 4`, `W = 12`, `wOffset = 3`, `nP1 = 3` gives
`N = 15 = 3 · 5`, accepted with an oracle calling 3 and 5 prime. -/
theorem C1_checkProofOfWork_witness :
    checkProofOfWork (fun n _ => if n = 3 ∨ n = 5 then 2 else 0) 12
      ⟨4, 3, 3⟩ ⟨50, false, 1209600, 230⟩ = true :=
  (C1_checkProofOfWork (fun n _ => if n = 3 ∨ n = 5 then 2 else 0) 12
      ⟨4, 3, 3⟩ ⟨50, false, 1209600, 230⟩ (by decide)).mpr (by decide)

theorem gHashCopy_lt (derived : Nat → Nat) (allBytes : Nat)
    (hbytes : ∀ i, derived i < 256) (i : Nat) : gHashCopy derived allBytes i < 256 := by
  rw [gHashCopy]
  split_ifs
  · exact hbytes i
  · norm_num

theorem gHashTrim_lt (derived : Nat → Nat) (nBits : Nat)
    (hbytes : ∀ i, derived i < 256) (i : Nat) : gHashTrim derived nBits i < 256 := by
  rw [gHashTrim]
  rcases eq_or_ne i (nBits / 8) with rfl | hne
  · rw [Function.update_same]
    exact lt_of_le_of_lt Nat.and_le_left (gHashCopy_lt derived _ hbytes _)
  · rw [Function.update_noteq hne]
    exact gHashCopy_lt derived _ hbytes _

theorem gHashTruncBytes_lt (derived : Nat → Nat) (nBits : Nat)
    (hbytes : ∀ i, derived i < 256) (i : Nat) : gHashTruncBytes derived nBits i < 256 := by
  simp only [gHashTruncBytes]
  have htrim := gHashTrim_lt derived nBits hbytes
  split_ifs with h0
  · rcases eq_or_ne i (nBits / 8 - 1) with rfl | hne
    · rw [Function.update_same]
      exact Nat.or_lt_two_pow (x := gHashTrim derived nBits _) (n := 8) (htrim _) (by norm_num)
    · rw [Function.update_noteq hne]
      exact htrim i
  · rcases eq_or_ne i (nBits / 8) with rfl | hne
    · rw [Function.update_same]
      refine Nat.or_lt_two_pow (n := 8) (htrim _) ?_
      calc (1 : Nat) <<< (nBits % 8 - 1) = 2 ^ (nBits % 8 - 1) := Nat.one_shiftLeft _
      _ ≤ 2 ^ 7 := Nat.pow_le_pow_right (by norm_num) (by omega)
      _ < 2 ^ 8 := by norm_num
    · rw [Function.update_noteq hne]
      exact htrim i

theorem gHashTruncBytes_of_gt (derived : Nat → Nat) (nBits i : Nat)
    (hi : nBits / 8 < i) : gHashTruncBytes derived nBits i = 0 := by
  have hcopy : gHashCopy derived (nBits / 8) i = 0 := by
    rw [gHashCopy, if_neg]
    omega
  have htrim : gHashTrim derived nBits i = 0 := by
    rw [gHashTrim, Function.update_noteq (by omega)]
    exact hcopy
  simp only [gHashTruncBytes]
  split_ifs with h0
  · rw [Function.update_noteq (by omega)]
    exact htrim
  · rw [Function.update_noteq (by omega)]
    exact htrim

theorem gHashTruncBytes_top_rem (derived : Nat → Nat) (nBits : Nat)
    (h0 : nBits % 8 ≠ 0) (h128 : nBits / 8 + 1 ≤ 128) :
    gHashTruncBytes derived nBits (nBits / 8) =
      (derived (nBits / 8) % 2 ^ (nBits % 8)) ||| 2 ^ (nBits % 8 - 1) := by
  simp only [gHashTruncBytes]
  rw [if_neg h0, Function.update_same, gHashTrim, Function.update_same, gHashCopy]
  rw [if_pos (by omega), Nat.one_shiftLeft, Nat.one_shiftLeft,
    Nat.and_pow_two_sub_one_eq_mod]

theorem gHashTruncBytes_top_aligned (derived : Nat → Nat) (nBits : Nat)
    (h0 : nBits % 8 = 0) (h1 : 1 ≤ nBits) :
    gHashTruncBytes derived nBits (nBits / 8) = 0 := by
  have hab : 1 ≤ nBits / 8 := by omega
  simp only [gHashTruncBytes]
  rw [if_pos h0, Function.update_noteq (by omega), gHashTrim, Function.update_same]
  rw [h0, Nat.one_shiftLeft]
  norm_num

theorem gHashTruncBytes_sub1_aligned (derived : Nat → Nat) (nBits : Nat)
    (h0 : nBits % 8 = 0) (h1 : 1 ≤ nBits) (h128 : nBits / 8 + 1 ≤ 128) :
    gHashTruncBytes derived nBits (nBits / 8 - 1) =
      derived (nBits / 8 - 1) ||| 128 := by
  have hab : 1 ≤ nBits / 8 := by omega
  simp only [gHashTruncBytes]
  rw [if_pos h0, Function.update_same, gHashTrim, Function.update_noteq (by omega), gHashCopy]
  rw [if_pos (by omega)]

theorem sum_bytes_lt (f : Nat → Nat) (k : Nat) (h : ∀ i, i < k → f i < 256) :
    ∑ i ∈ Finset.range k, f i * 256 ^ i < 256 ^ k := by
  induction k with
  | zero => simp
  | succ k ih =>
    rw [Finset.sum_range_succ, pow_succ]
    have hk : f k * 256 ^ k ≤ 255 * 256 ^ k :=
      Nat.mul_le_mul_right _ (by have := h k (by omega); omega)
    have hih := ih (fun i hi => h i (by omega))
    omega

theorem term_le_sum_range (f : Nat → Nat) (k j : Nat) (hj : j < k) :
    f j ≤ ∑ i ∈ Finset.range k, f i :=
  Finset.single_le_sum (fun i _ => Nat.zero_le (f i)) (Finset.mem_range.mpr hj)

set_option maxHeartbeats 800000 in
theorem gHashTrunc_bounds (derived : Nat → Nat) (nBits : Nat)
    (hbytes : ∀ i, derived i < 256) (h1 : 1 ≤ nBits) (h128 : nBits / 8 + 1 ≤ 128) :
    2 ^ (nBits - 1) ≤ gHashTrunc derived nBits ∧ gHashTrunc derived nBits < 2 ^ nBits := by
  have hlt := gHashTruncBytes_lt derived nBits hbytes
  have hshrink : gHashTrunc derived nBits =
      ∑ i ∈ Finset.range (nBits / 8 + 1), gHashTruncBytes derived nBits i * 256 ^ i := by
    rw [gHashTrunc]
    symm
    apply Finset.sum_subset
    · exact Finset.range_subset.mpr h128
    · intro x _ hx
      rw [Finset.mem_range, not_lt] at hx
      rw [gHashTruncBytes_of_gt derived nBits x (by omega)]
      ring
  have hpow : ∀ a b : Nat, (256 : Nat) ^ a * 2 ^ b = 2 ^ (8 * a + b) := by
    intro a b
    rw [show (256 : Nat) = 2 ^ 8 from rfl, ← pow_mul, ← pow_add]
  rcases Nat.eq_zero_or_pos (nBits % 8) with h0 | h0
  · -- byte aligned: top byte zero, byte allBytes-1 has its high bit forced
    have hab : 1 ≤ nBits / 8 := by omega
    have htop := gHashTruncBytes_top_aligned derived nBits h0 h1
    have hsub := gHashTruncBytes_sub1_aligned derived nBits h0 h1 h128
    have hsubLow : 2 ^ 7 ≤ gHashTruncBytes derived nBits (nBits / 8 - 1) := by
      rw [hsub]
      have h128t : Nat.testBit 128 7 = true := by
        rw [show (128 : Nat) = 2 ^ 7 from rfl]
        exact Nat.testBit_two_pow_self
      have ht : Nat.testBit (derived (nBits / 8 - 1) ||| 128) 7 = true := by
        rw [Nat.testBit_or, h128t, Bool.or_true]
      exact Nat.testBit_implies_ge ht
    constructor
    · calc (2 : Nat) ^ (nBits - 1) = 256 ^ (nBits / 8 - 1) * 2 ^ 7 := by
            rw [hpow, show 8 * (nBits / 8 - 1) + 7 = nBits - 1 from by omega]
      _ = 2 ^ 7 * 256 ^ (nBits / 8 - 1) := Nat.mul_comm _ _
      _ ≤ gHashTruncBytes derived nBits (nBits / 8 - 1) * 256 ^ (nBits / 8 - 1) :=
            Nat.mul_le_mul_right _ hsubLow
      _ ≤ gHashTrunc derived nBits := by
            rw [hshrink]
            exact term_le_sum_range (fun i => gHashTruncBytes derived nBits i * 256 ^ i)
              (nBits / 8 + 1) _ (by omega)
    · rw [hshrink, Finset.sum_range_succ, htop]
      have hsum := sum_bytes_lt (gHashTruncBytes derived nBits) (nBits / 8)
        (fun i _ => hlt i)
      have h2 : (256 : Nat) ^ (nBits / 8) = 2 ^ nBits := by
        rw [show (256 : Nat) = 2 ^ 8 from rfl, ← pow_mul,
          show 8 * (nBits / 8) = nBits from by omega]
      omega
  · -- unaligned: the top byte carries bits [8·allBytes, nBits)
    have htop := gHashTruncBytes_top_rem derived nBits (by omega) h128
    have htopLow : 2 ^ (nBits % 8 - 1) ≤ gHashTruncBytes derived nBits (nBits / 8) := by
      rw [htop]
      have : Nat.testBit
          ((derived (nBits / 8) % 2 ^ (nBits % 8)) ||| 2 ^ (nBits % 8 - 1))
          (nBits % 8 - 1) = true := by
        rw [Nat.testBit_or]
        simp [Nat.testBit_two_pow_self]
      exact Nat.testBit_implies_ge this
    have htopHigh : gHashTruncBytes derived nBits (nBits / 8) < 2 ^ (nBits % 8) := by
      rw [htop]
      refine Nat.or_lt_two_pow (Nat.mod_lt _ (pow_pos (by norm_num) _)) ?_
      exact Nat.pow_lt_pow_right (by norm_num) (by omega)
    constructor
    · calc (2 : Nat) ^ (nBits - 1) = 256 ^ (nBits / 8) * 2 ^ (nBits % 8 - 1) := by
            rw [hpow, show 8 * (nBits / 8) + (nBits % 8 - 1) = nBits - 1 from by omega]
      _ = 2 ^ (nBits % 8 - 1) * 256 ^ (nBits / 8) := Nat.mul_comm _ _
      _ ≤ gHashTruncBytes derived nBits (nBits / 8) * 256 ^ (nBits / 8) :=
            Nat.mul_le_mul_right _ htopLow
      _ ≤ gHashTrunc derived nBits := by
            rw [hshrink]
            exact term_le_sum_range (fun i => gHashTruncBytes derived nBits i * 256 ^ i)
              (nBits / 8 + 1) _ (by omega)
    · rw [hshrink, Finset.sum_range_succ]
      have hsum := sum_bytes_lt (gHashTruncBytes derived nBits) (nBits / 8)
        (fun i _ => hlt i)
      have hmul : gHashTruncBytes derived nBits (nBits / 8) * 256 ^ (nBits / 8) ≤
          (2 ^ (nBits % 8) - 1) * 256 ^ (nBits / 8) :=
        Nat.mul_le_mul_right _ (by omega)
      have h2 : (2 : Nat) ^ (nBits % 8) * 256 ^ (nBits / 8) = 2 ^ nBits := by
        rw [Nat.mul_comm, hpow, show 8 * (nBits / 8) + nBits % 8 = nBits from by omega]
      have hpos : (0 : Nat) < 256 ^ (nBits / 8) := pow_pos (by norm_num) _
      nlinarith [hsum, hmul]

theorem gHashTrunc_log2 (derived : Nat → Nat) (nBits : Nat)
    (hbytes : ∀ i, derived i < 256) (h1 : 1 ≤ nBits) (h128 : nBits / 8 + 1 ≤ 128) :
    Nat.log2 (gHashTrunc derived nBits) + 1 = nBits := by
  obtain ⟨hlow, hhigh⟩ := gHashTrunc_bounds derived nBits hbytes h1 h128
  obtain ⟨k, rfl⟩ : ∃ k, nBits = k + 1 := ⟨nBits - 1, by omega⟩
  rw [Nat.add_sub_cancel] at hlow
  rw [Nat.log2_eq_log_two, Nat.log_eq_of_pow_le_of_lt_pow hlow hhigh]

/-- C2: for every 256-byte hash buffer (hence for every block header) and
every `nBits` with `nBits/8 + 1 ≤ 128`, the `uint1024` returned by the
`gHash` truncation has bit length exactly `nBits`: all bits at positions
`≥ nBits` are zero and the bit at position `nBits - 1` is forced to 1.
`1 ≤ nBits` is required for the position `nBits - 1` to exist (at
`nBits = 0` the source writes `w[-1]`, out of bounds). -/
theorem C2_gHash_bitlength (derived : Nat → Nat) (nBits : Nat)
    (hbytes : ∀ i, derived i < 256) (h1 : 1 ≤ nBits) (h128 : nBits / 8 + 1 ≤ 128) :
    (∀ j, nBits ≤ j → Nat.testBit (gHashTrunc derived nBits) j = false) ∧
    Nat.testBit (gHashTrunc derived nBits) (nBits - 1) = true ∧
    Nat.log2 (gHashTrunc derived nBits) + 1 = nBits := by
  refine ⟨?_, ?_, gHashTrunc_log2 derived nBits hbytes h1 h128⟩
  · intro j hj
    obtain ⟨hlow, hhigh⟩ := gHashTrunc_bounds derived nBits hbytes h1 h128
    exact Nat.testBit_lt_two_pow
      (lt_of_lt_of_le hhigh (Nat.pow_le_pow_right (by norm_num) hj))
  · obtain ⟨hlow, hhigh⟩ := gHashTrunc_bounds derived nBits hbytes h1 h128
    obtain ⟨k, rfl⟩ : ∃ k, nBits = k + 1 := ⟨nBits - 1, by omega⟩
    rw [Nat.add_sub_cancel] at hlow ⊢
    have h2p : (2 : Nat) ^ (k + 1) = 2 * 2 ^ k := pow_succ' 2 k
    rw [Nat.testBit_to_div_mod]
    have hdiv : gHashTrunc derived (k + 1) / 2 ^ k = 1 :=
      Nat.div_eq_of_lt_le (by omega) (by omega)
    rw [hdiv]
    rfl

/-- C2 witness: the all-zero buffer at `nBits = 9` (the truncation forces
the value `256`: bit 8 set, bit length 9). -/
theorem C2_gHash_bitlength_witness :
    Nat.testBit (gHashTrunc (fun _ => 0) 9) 8 = true ∧
    Nat.log2 (gHashTrunc (fun _ => 0) 9) + 1 = 9 :=
  ⟨(C2_gHash_bitlength (fun _ => 0) 9 (fun _ => by norm_num) (by norm_num) (by norm_num)).2.1,
   (C2_gHash_bitlength (fun _ => 0) 9 (fun _ => by norm_num) (by norm_num) (by norm_num)).2.2⟩

/-- C10: a header whose `nP1` field is all zero bytes and whose
`wOffset` is zero passes both guards that precede
`mpz_tdiv_q(nP2, n, nP1)` whenever the seed is a `gHash` output (which
always has bit length `nBits` by C2): the division is reached with a
zero divisor, and nothing before it establishes `nP1 ≠ 0`. -/
theorem C10_division_by_zero_reachable (derived : Nat → Nat) (nBits : Nat)
    (hbytes : ∀ i, derived i < 256) (h1 : 1 ≤ nBits) (h128 : nBits / 8 + 1 ≤ 128) :
    powReachesDivision (gHashTrunc derived nBits) ⟨nBits, 0, 0⟩ = true ∧
    (⟨nBits, 0, 0⟩ : BlockHeader).nP1 = 0 := by
  refine ⟨?_, rfl⟩
  have hlog := gHashTrunc_log2 derived nBits hbytes h1 h128
  have hV1 : 1 ≤ gHashTrunc derived nBits := by
    obtain ⟨hlow, -⟩ := gHashTrunc_bounds derived nBits hbytes h1 h128
    have : (1 : Nat) ≤ 2 ^ (nBits - 1) := Nat.one_le_two_pow
    omega
  have hsem : semiN (gHashTrunc derived nBits) ⟨nBits, 0, 0⟩ =
      ((gHashTrunc derived nBits : Nat) : Int) := by
    simp [semiN, absWOffset]
  have hsz : mpzSizeInBase2 (((gHashTrunc derived nBits : Nat) : Int)) = nBits := by
    rw [mpzSizeInBase2_def, if_neg (Int.natCast_ne_zero.mpr (by omega)), Int.natAbs_ofNat]
    omega
  rw [powReachesDivision, if_neg (by simp [absWOffset]), if_neg]
  rw [hsem, hsz]
  exact fun h => h rfl

/-- C10 witness: the all-zero buffer at `nBits = 9` again; the resulting
header `⟨9, 0, 0⟩` reaches the division with divisor `nP1 = 0`. -/
theorem C10_division_by_zero_reachable_witness :
    powReachesDivision (gHashTrunc (fun _ => 0) 9) ⟨9, 0, 0⟩ = true ∧
    (⟨9, 0, 0⟩ : BlockHeader).nP1 = 0 :=
  C10_division_by_zero_reachable (fun _ => 0) 9 (fun _ => by norm_num) (by norm_num)
    (by norm_num)

/-- C3 counterexample: at a retarget with `nBits = 230` equal to
`powLimit = 230` (the mainnet parameters) and an actual timespan of twice
the target, `CalculateNextWorkRequired` returns `229 < powLimit`: the
returned value is not floored at `powLimit`. -/
theorem C3_retarget_counterexample :
    calculateNextWorkRequired 230 2419200 0 ⟨50, false, 1209600, 230⟩ = 229 ∧
    229 < (⟨50, false, 1209600, 230⟩ : ConsensusParams).powLimit := by
  constructor
  · norm_num [calculateNextWorkRequired, rat10333f, rat090f]
    rfl
  · decide

/-- C3 (amended): with retargeting enabled, the function returns
`nBits - 1` when the timespan proportion exceeds the binary32 constant
`1.0333f`, `nBits + 1` when it is below the binary32 constant `0.90f`,
and `nBits` unchanged in between — each reduced into the `uint16_t`
return type — with no flooring at `powLimit`. -/
theorem C3_retargetCalculation (lastBits : Nat) (lastBlockTime nFirstBlockTime : Int)
    (params : ConsensusParams) (hret : params.fPowNoRetargeting = false) :
    (((lastBlockTime - nFirstBlockTime : Int) : ℚ) / (params.nPowTargetTimespan : ℚ) >
        rat10333f →
      calculateNextWorkRequired lastBits lastBlockTime nFirstBlockTime params =
        (((lastBits : Int) - 1) % 65536).toNat) ∧
    (((lastBlockTime - nFirstBlockTime : Int) : ℚ) / (params.nPowTargetTimespan : ℚ) <
        rat090f →
      calculateNextWorkRequired lastBits lastBlockTime nFirstBlockTime params =
        (((lastBits : Int) + 1) % 65536).toNat) ∧
    (rat090f ≤ ((lastBlockTime - nFirstBlockTime : Int) : ℚ) /
        (params.nPowTargetTimespan : ℚ) →
      ((lastBlockTime - nFirstBlockTime : Int) : ℚ) / (params.nPowTargetTimespan : ℚ) ≤
        rat10333f →
      calculateNextWorkRequired lastBits lastBlockTime nFirstBlockTime params =
        ((lastBits : Int) % 65536).toNat) := by
  have hlt : rat090f < rat10333f := by norm_num [rat090f, rat10333f]
  refine ⟨?_, ?_, ?_⟩
  · intro hgt
    have hnlt : ¬ (((lastBlockTime - nFirstBlockTime : Int) : ℚ) /
        (params.nPowTargetTimespan : ℚ) < rat090f) := by
      push_neg
      exact le_trans hlt.le hgt.le
    simp only [calculateNextWorkRequired, hret, if_false, Bool.false_eq_true,
      if_neg hnlt, if_pos hgt]
    rw [Int.sub_eq_add_neg]
  · intro hltr
    simp only [calculateNextWorkRequired, hret, if_false, Bool.false_eq_true,
      if_pos hltr]
  · intro hge hle
    have h1 : ¬ (((lastBlockTime - nFirstBlockTime : Int) : ℚ) /
        (params.nPowTargetTimespan : ℚ) < rat090f) := not_lt.mpr hge
    have h2 : ¬ (((lastBlockTime - nFirstBlockTime : Int) : ℚ) /
        (params.nPowTargetTimespan : ℚ) > rat10333f) := not_lt.mpr hle
    simp only [calculateNextWorkRequired, hret, if_false, Bool.false_eq_true,
      if_neg h1, if_neg h2]
    rw [Int.add_zero]

/-- C3 witness: the counterexample configuration exercises the
`ratio > 1.0333f` branch of the amended theorem. -/
theorem C3_retargetCalculation_witness :
    calculateNextWorkRequired 230 2419200 0 ⟨50, false, 1209600, 230⟩ =
      (((230 : Int) - 1) % 65536).toNat :=
  (C3_retargetCalculation 230 2419200 0 ⟨50, false, 1209600, 230⟩ rfl).1
    (by norm_num [rat10333f])

theorem claimExistsLoop_mem {hash claim : Nat} {minH maxH : Int}
    {l : List (AnnKey × AnnValue)}
    (h : claimExistsLoop hash claim minH maxH l = true) :
    ∃ kv ∈ l, kv.1.typ = dbDeadpoolAnn ∧ kv.1.deadpoolId = hash ∧
      kv.2.claimHash = claim ∧ minH ≤ kv.2.height ∧ kv.2.height ≤ maxH := by
  induction l with
  | nil => simp [claimExistsLoop] at h
  | cons kv rest ih =>
    rw [claimExistsLoop] at h
    split_ifs at h with h1 h2
    · exact ⟨kv, by simp, h1.1, h1.2, h2.2.2, h2.2.1, h2.1⟩
    · obtain ⟨kv2, hmem, hp⟩ := ih h
      exact ⟨kv2, by simp [hmem], hp⟩

theorem claimExistsLoop_complete (hash claim : Nat) (minH maxH : Int) :
    ∀ l : List (AnnKey × AnnValue),
      (∀ kv ∈ l, kv.1.typ = dbDeadpoolAnn) →
      l.Pairwise (fun a b => a.1.deadpoolId ≤ b.1.deadpoolId) →
      (∀ kv ∈ l, hash ≤ kv.1.deadpoolId) →
      ∀ kv ∈ l, kv.1.deadpoolId = hash →
      kv.2.claimHash = claim → minH ≤ kv.2.height → kv.2.height ≤ maxH →
      claimExistsLoop hash claim minH maxH l = true := by
  intro l
  induction l with
  | nil =>
    intro _ _ _ kv hmem
    simp at hmem
  | cons x rest ih =>
    intro htyp hsort hge kv hmem hid hch hmin hmax
    rw [claimExistsLoop]
    have hxtyp : x.1.typ = dbDeadpoolAnn := htyp x (by simp)
    have hxid : x.1.deadpoolId = hash := by
      rcases List.mem_cons.mp hmem with rfl | hmem2
      · exact hid
      · have hg : hash ≤ x.1.deadpoolId := hge x (by simp)
        have hle : x.1.deadpoolId ≤ kv.1.deadpoolId :=
          (List.pairwise_cons.mp hsort).1 kv hmem2
        omega
    rw [if_pos ⟨hxtyp, hxid⟩]
    split_ifs with h2
    · rfl
    · rcases List.mem_cons.mp hmem with rfl | hmem2
      · exact absurd ⟨hmax, hmin, hch⟩ h2
      · exact ih (fun a ha => htyp a (by simp [ha])) (List.pairwise_cons.mp hsort).2
          (fun a ha => hge a (by simp [ha])) kv hmem2 hid hch hmin hmax

theorem mem_dropWhile_of_not {α : Type} (p : α → Bool) (l : List α) (a : α)
    (hmem : a ∈ l) (ha : p a = false) : a ∈ l.dropWhile p := by
  induction l with
  | nil => simp at hmem
  | cons x rest ih =>
    rcases List.mem_cons.mp hmem with rfl | hmem2
    · rw [List.dropWhile_cons, if_neg (by simp [ha])]
      simp
    · rw [List.dropWhile_cons]
      split_ifs with hx
      · exact ih hmem2
      · simp [hmem2]

theorem annSeek_ge (hash : Nat) :
    ∀ l : List (AnnKey × AnnValue),
      (∀ kv ∈ l, kv.1.typ = dbDeadpoolAnn) →
      l.Pairwise (fun a b => a.1.deadpoolId ≤ b.1.deadpoolId) →
      ∀ a ∈ l.dropWhile (fun kv =>
          decide (kv.1.typ < dbDeadpoolAnn) ||
            (kv.1.typ == dbDeadpoolAnn && decide (kv.1.deadpoolId < hash))),
        hash ≤ a.1.deadpoolId := by
  intro l
  induction l with
  | nil =>
    intro _ _ a ha
    simp at ha
  | cons x rest ih =>
    intro htyp hsort a ha
    have hxtyp : x.1.typ = dbDeadpoolAnn := htyp x (by simp)
    rw [List.dropWhile_cons] at ha
    split_ifs at ha with hx
    · exact ih (fun b hb => htyp b (by simp [hb])) (List.pairwise_cons.mp hsort).2 a ha
    · simp only [hxtyp, dbDeadpoolAnn] at hx
      norm_num at hx
      rcases List.mem_cons.mp ha with rfl | hmem2
      · omega
      · have hle : x.1.deadpoolId ≤ a.1.deadpoolId :=
          (List.pairwise_cons.mp hsort).1 a hmem2
        omega

/-- C8: over a well-formed announcement database — every record typed
`DB_DEADPOOL_ANN` and the records in ascending key order, as the backing
store keeps them — `ClaimExists(h, c, minHeight, maxHeight)` returns true
exactly when some record has deadpool id `h`, claim hash `c` and height
within `[minHeight, maxHeight]`. -/
theorem C8_claimExists (db : List (AnnKey × AnnValue)) (hash claim : Nat)
    (minHeight maxHeight : Int)
    (htyp : ∀ kv ∈ db, kv.1.typ = dbDeadpoolAnn)
    (hsort : db.Pairwise (fun a b => a.1.deadpoolId ≤ b.1.deadpoolId)) :
    claimExists db hash claim minHeight maxHeight = true ↔
      ∃ kv ∈ db, kv.1.deadpoolId = hash ∧ kv.2.claimHash = claim ∧
        minHeight ≤ kv.2.height ∧ kv.2.height ≤ maxHeight := by
  rw [claimExists]
  constructor
  · intro h
    obtain ⟨kv, hmem, -, hid, hch, hmin, hmax⟩ := claimExistsLoop_mem h
    exact ⟨kv, (List.dropWhile_sublist _).subset hmem, hid, hch, hmin, hmax⟩
  · rintro ⟨kv, hmem, hid, hch, hmin, hmax⟩
    have hPkv : (fun kv : AnnKey × AnnValue =>
        decide (kv.1.typ < dbDeadpoolAnn) ||
          (kv.1.typ == dbDeadpoolAnn && decide (kv.1.deadpoolId < hash))) kv = false := by
      have hk := htyp kv hmem
      simp [hk, hid, dbDeadpoolAnn]
    exact claimExistsLoop_complete hash claim minHeight maxHeight _
      (fun a ha => htyp a ((List.dropWhile_sublist _).subset ha))
      (List.Pairwise.sublist (List.dropWhile_sublist _) hsort)
      (annSeek_ge hash db htyp hsort)
      kv (mem_dropWhile_of_not _ db kv hmem hPkv) hid hch hmin hmax

/-- C8 witness: a one-record database holding an announcement for
deadpool id 5 with claim hash 77 at height 10 inside the window. -/
theorem C8_claimExists_witness :
    claimExists [(⟨97, 5, 0⟩, ⟨10, 77⟩)] 5 77 0 100 = true :=
  (C8_claimExists [(⟨97, 5, 0⟩, ⟨10, 77⟩)] 5 77 0 100 (by decide) (by decide)).mpr
    (by decide)

/-- C9: evaluation at the scenario-A entry script.  The script is
recognized and `ExtractDeadpoolEntryIds` collects exactly the SHA-256 of
the 20 pushed bytes — but that digest is *not* the id the claim (and the
repository's own `deadpool_tests`) expects: the expected constant
`cadb7d0d07…b17b3` (uint256 hex display, i.e. reversed digest bytes) is
the SHA-256 of the two bytes `0x01 0x3f`, the payload with its 18 zero
padding bytes stripped, while the code hashes the raw padded push.  The
final two conjuncts pin the expected constant's provenance and display
prefix/suffix. -/
theorem C9_entry_hash_divergence :
    isDeadpoolEntry entryScript13f = true ∧
    extractDeadpoolEntryIds [entryScript13f] = (true, [hashNValue paddedN13f]) ∧
    hashNValue paddedN13f ≠
      [179, 23, 219, 237, 223, 144, 240, 243, 91, 184, 142, 164, 186, 75, 215, 107,
       19, 117, 104, 178, 119, 163, 85, 201, 237, 6, 21, 7, 13, 125, 219, 202] ∧
    beWord ((hashNValue paddedN13f).reverse) / 16 ^ 54 ≠ 0xcadb7d0d07 ∧
    hashNValue [1, 63] =
      [179, 23, 219, 237, 223, 144, 240, 243, 91, 184, 142, 164, 186, 75, 215, 107,
       19, 117, 104, 178, 119, 163, 85, 201, 237, 6, 21, 7, 13, 125, 219, 202] ∧
    beWord ((hashNValue [1, 63]).reverse) / 16 ^ 54 = 0xcadb7d0d07 ∧
    beWord ((hashNValue [1, 63]).reverse) % 16 ^ 5 = 0xb17b3 := by
  refine ⟨by decide, by decide, by decide, by decide, by decide, by decide, by decide⟩

/-- C7 witness: the concrete two-byte input `0x01 0x3f` exercises the
rejection path and its reason is among the seven `bad-bigint-*` strings. -/
theorem C7_checkDeadpoolInteger_witness :
    checkDeadpoolInteger [1, 63] true = some reasonBigintTooSmall ∧
    reasonBigintTooSmall ∈ [reasonBigintZero, reasonBigintInvalidNumber,
      reasonBigintNegative, reasonBigintTooSmall, reasonBigintTooLarge,
      reasonBigintNonCanonicalSize, reasonBigintNonCanonical] :=
  ⟨(C7_checkDeadpoolInteger [1, 63]).2.2,
   (C7_checkDeadpoolInteger [1, 63]).2.1 reasonBigintTooSmall
     (C7_checkDeadpoolInteger [1, 63]).2.2⟩
